import Mathlib

/-!
# kindr positions: the generic position interface

A shallow embedding of `include/kindr/positions/PositionBase.hpp`.

The header is a compile-time interface. `PositionBase<Derived_>` owns no data:
an object of it is the base subobject of a `Derived_` object, `derived()` is a
`static_cast`, and every arithmetic operator forwards to a trait class
(`internal::AdditionTraits`, `internal::MultiplicationTraits`) that converts the
operands to the backend coordinate buffer with `toBase()`, lets the buffer do
the arithmetic, and rebuilds a `Derived_` with its constructor from a buffer.

The template parameters become Lean parameters:

* `D` is the concrete position type `Derived_`;
* `B` is the backend coordinate buffer, the type returned by `toBase()`;
* `S` is the native scalar `internal::get_scalar<Derived_>::Scalar`;
* `F` is a factor type `FactorPrimType_` / `DivisorPrimType_`, together with
  the conversion `static_cast<Scalar>` from `F` to `S`.
-/

namespace kindr
namespace positions

/-! ## What the header requires of a concrete position type -/

/-- The members of `Derived_` and of its backend buffer that the header calls:
the constructor `Derived_(const Base&)`, the conversion `toBase()`, and the four
operators of the buffer (`+`, `-`, `* scalar`, `/ scalar`). The header places no
further requirement on them. -/
structure Family (D B S : Type) where
  /-- The constructor of the concrete type from a backend buffer. -/
  ctor : B → D
  /-- The conversion `toBase()` of a concrete position to its backend buffer. -/
  toBase : D → B
  /-- The buffer operator `+`. -/
  bufAdd : B → B → B
  /-- The buffer operator `-`. -/
  bufSub : B → B → B
  /-- The buffer operator `*` with a scalar on the right. -/
  bufMul : B → S → B
  /-- The buffer operator `/` with a scalar on the right. -/
  bufDiv : B → S → B

/-- The conversion `static_cast<typename get_scalar<Position_>::Scalar>(factor)`
from a factor type `F` to the native scalar `S`. -/
abbrev StaticCast (F S : Type) : Type := F → S

/-! ## `PositionBase<Derived_>` and the trait specialisations -/

namespace PositionBase

/-- The member `derived()`: `static_cast<const Derived_&>(*this)`. The base class
has no data of its own, so the base view and the derived object are the same
value. -/
def derived {D : Type} (self : D) : D := self

end PositionBase

namespace internal

namespace AdditionTraits

/-- The function `AdditionTraits<PositionBase<LeftAndRight_>>::add`:
`LeftAndRight_(lhs.derived().toBase() + rhs.derived().toBase())`. -/
def add {D B S : Type} (T : Family D B S) (lhs rhs : D) : D :=
  T.ctor (T.bufAdd (T.toBase (PositionBase.derived lhs)) (T.toBase (PositionBase.derived rhs)))

/-- The function `AdditionTraits<PositionBase<LeftAndRight_>>::subtract`:
`LeftAndRight_(lhs.derived().toBase() - rhs.derived().toBase())`. -/
def subtract {D B S : Type} (T : Family D B S) (lhs rhs : D) : D :=
  T.ctor (T.bufSub (T.toBase (PositionBase.derived lhs)) (T.toBase (PositionBase.derived rhs)))

end AdditionTraits

namespace MultiplicationTraits

/-- The function `MultiplicationTraits<PositionBase<Position_>, ScalarPrimType_>::multiply`:
`Position_(position.derived().toBase() * static_cast<Scalar>(factor))`. -/
def multiply {D B S F : Type} (T : Family D B S) (cast : StaticCast F S)
    (position : D) (factor : F) : D :=
  T.ctor (T.bufMul (T.toBase (PositionBase.derived position)) (cast factor))

/-- The function `MultiplicationTraits<PositionBase<Position_>, ScalarPrimType_>::divide`:
`Position_(position.derived().toBase() / static_cast<Scalar>(divisor))`. -/
def divide {D B S F : Type} (T : Family D B S) (cast : StaticCast F S)
    (position : D) (divisor : F) : D :=
  T.ctor (T.bufDiv (T.toBase (PositionBase.derived position)) (cast divisor))

end MultiplicationTraits

end internal

namespace PositionBase

/-- The member `operator +`: forwards `this->derived()` and `other.derived()` to
`AdditionTraits<PositionBase<Derived_>>::add`. The parameter is declared as a
`PositionBase<OtherDerived_>`, but `add` takes two `PositionBase<Derived_>`, so
both operands are of the one concrete type `D`, which is also the result type. -/
def opAdd {D B S : Type} (T : Family D B S) (self other : D) : D :=
  internal.AdditionTraits.add T (derived self) (derived other)

/-- The member `operator -`: forwards to `AdditionTraits::subtract`. -/
def opSub {D B S : Type} (T : Family D B S) (self other : D) : D :=
  internal.AdditionTraits.subtract T (derived self) (derived other)

/-- The member `operator *` for a factor of type `F`: forwards to
`MultiplicationTraits::multiply`. -/
def opMul {D B S F : Type} (T : Family D B S) (cast : StaticCast F S)
    (self : D) (factor : F) : D :=
  internal.MultiplicationTraits.multiply T cast (derived self) factor

/-- The member `operator /` for a divisor of type `F`: forwards to
`MultiplicationTraits::divide`. -/
def opDiv {D B S F : Type} (T : Family D B S) (cast : StaticCast F S)
    (self : D) (divisor : F) : D :=
  internal.MultiplicationTraits.divide T cast (derived self) divisor

end PositionBase

/-- The free function `operator *(FactorPrimType_ factor, const PositionBase<Position_>& position)`:
`return position*factor;`. -/
def opMulLeft {D B S F : Type} (T : Family D B S) (cast : StaticCast F S)
    (factor : F) (position : D) : D :=
  PositionBase.opMul T cast position factor

/-! ## Concrete families used to evaluate the interface -/

/-- A three-coordinate backend buffer over a coordinate type `α`. -/
structure Vector3 (α : Type) where
  x : α
  y : α
  z : α
deriving DecidableEq

namespace Vector3

/-- Coordinate-wise sum of two buffers. -/
def add {α : Type} [Add α] (u v : Vector3 α) : Vector3 α :=
  ⟨u.x + v.x, u.y + v.y, u.z + v.z⟩

/-- Coordinate-wise difference of two buffers. -/
def sub {α : Type} [Sub α] (u v : Vector3 α) : Vector3 α :=
  ⟨u.x - v.x, u.y - v.y, u.z - v.z⟩

/-- Every coordinate combined with one scalar by `op` (scaling, or division by a scalar). -/
def scalarOp {α : Type} (op : α → α → α) (u : Vector3 α) (k : α) : Vector3 α :=
  ⟨op u.x k, op u.y k, op u.z k⟩

end Vector3

/-- A concrete 3D position: it stores its backend buffer and nothing else. -/
structure Position3 (α : Type) where
  vector : Vector3 α
deriving DecidableEq

/-- The 3D family over a coordinate type `α`. The quotient `div` of two scalars
is whatever the backend computes, also for a zero divisor. -/
def position3 (α : Type) [Add α] [Sub α] [Mul α] (div : α → α → α) :
    Family (Position3 α) (Vector3 α) α where
  ctor := Position3.mk
  toBase := Position3.vector
  bufAdd := Vector3.add
  bufSub := Vector3.sub
  bufMul := Vector3.scalarOp (· * ·)
  bufDiv := Vector3.scalarOp div

/-- The 3D family over machine-independent integers, with the truncating
quotient of C++ (`Int.tdiv`, which is `0` for a zero divisor). -/
def position3i : Family (Position3 ℤ) (Vector3 ℤ) ℤ := position3 ℤ Int.tdiv

/-- The 3D position with coordinates `x`, `y`, `z`. -/
def Position3.of {α : Type} (x y z : α) : Position3 α := ⟨⟨x, y, z⟩⟩

/-- The conversion of an exact fraction to an integer scalar: `static_cast<int>`
truncates towards zero. -/
def truncCast : StaticCast ℚ ℤ := fun q => Int.tdiv q.num q.den

/-- The unit factor one half, as an exact fraction. -/
def half : ℚ := 1 / 2

/-- The zero buffer of three integer coordinates. -/
def Vector3.zero : Vector3 ℤ := ⟨0, 0, 0⟩

/-! ### A range-limited family

A concrete type may keep its coordinates inside a working range. Its constructor
from a buffer then saturates, and `toBase()` of a constructed position need not
be the buffer it was built from. -/

/-- Saturation of one coordinate to the range from -100 to 100. -/
def clamp (v : ℤ) : ℤ := max (-100) (min 100 v)

/-- A 3D position whose coordinates are kept inside the working range. -/
structure BoundedPosition3 where
  vector : Vector3 ℤ
deriving DecidableEq

/-- The constructor of `BoundedPosition3` from a buffer: every coordinate is saturated. -/
def BoundedPosition3.ofVector (v : Vector3 ℤ) : BoundedPosition3 :=
  ⟨⟨clamp v.x, clamp v.y, clamp v.z⟩⟩

/-- The range-limited 3D family over the exact integer buffer. -/
def boundedPosition3 : Family BoundedPosition3 (Vector3 ℤ) ℤ where
  ctor := BoundedPosition3.ofVector
  toBase := BoundedPosition3.vector
  bufAdd := Vector3.add
  bufSub := Vector3.sub
  bufMul := Vector3.scalarOp (· * ·)
  bufDiv := Vector3.scalarOp Int.tdiv

/-! ## Compound assignment -/

/-- The objects of the concrete type, by address. A reference is an address. -/
abbrev Store (D : Type) : Type := ℕ → D

/-- Modelled from the spec: `operator +=` is declared by `PositionBase`
(`Derived_& operator +=(const PositionBase<OtherDerived_>& other);`) and defined
by the concrete families, which "implement these in terms of the non-mutating
operators": `*this = *this + other; return *this;`. The result is the store
afterwards and the returned reference. -/
def PositionBase.opAddAssign {D B S : Type} (T : Family D B S) (σ : Store D)
    (self other : ℕ) : Store D × ℕ :=
  (Function.update σ self (PositionBase.opAdd T (σ self) (σ other)), self)

/-- The statement `a = a + b` on the objects at addresses `a` and `b`: the sum
is computed by `operator +` from the values before, then stored in `a`. -/
def assignSum {D B S : Type} (T : Family D B S) (σ : Store D) (a b : ℕ) : Store D :=
  fun c => if c = a then PositionBase.opAdd T (σ a) (σ b) else σ c

/-- A store holding `(1,2,3)` at address `0` and `(4,5,6)` everywhere else. -/
def sampleStore : Store (Position3 ℤ) :=
  fun c => if c = 0 then Position3.of 1 2 3 else Position3.of 4 5 6

/-! ## Laws of the integer 3D family -/

theorem position3i_bufAdd_comm (x y : Vector3 ℤ) :
    position3i.bufAdd x y = position3i.bufAdd y x := by
  simp [position3i, position3, Vector3.add, add_comm]

theorem position3i_bufAdd_assoc (x y z : Vector3 ℤ) :
    position3i.bufAdd (position3i.bufAdd x y) z
      = position3i.bufAdd x (position3i.bufAdd y z) := by
  simp [position3i, position3, Vector3.add, add_assoc]

theorem position3i_bufDiv_bufMul (x : Vector3 ℤ) (k : ℤ) (hk : k ≠ 0) :
    position3i.bufDiv (position3i.bufMul x k) k = x := by
  simp [position3i, position3, Vector3.scalarOp, Int.mul_tdiv_cancel _ hk]

theorem truncCast_29_10 : truncCast (29 / 10) = 2 := by
  norm_num [truncCast]
  rfl

theorem truncCast_half : truncCast half = 0 := by
  norm_num [truncCast, half]
  rfl

theorem half_ne_zero : half ≠ 0 := by
  norm_num [half]

/-! ## The binary operators (C1, C2, C3) -/

/-- C1. For every concrete family and all positions `a`, `b` of it, `a + b` is the
concrete type constructed from `a.toBase() + b.toBase()` and `a - b` the one
constructed from `a.toBase() - b.toBase()`, with the buffer operations on the
right; the result has the concrete type of the operands. In the 3D family over
the integers, `(1,2,3) + (4,5,6) = (5,7,9)` and `(1,2,3) - (4,5,6) = (-3,-3,-3)`. -/
theorem opAdd_opSub_through_buffer :
    (∀ (D B S : Type) (T : Family D B S) (a b : D),
        PositionBase.opAdd T a b = T.ctor (T.bufAdd (T.toBase a) (T.toBase b)) ∧
        PositionBase.opSub T a b = T.ctor (T.bufSub (T.toBase a) (T.toBase b))) ∧
      PositionBase.opAdd position3i (Position3.of 1 2 3) (Position3.of 4 5 6)
        = Position3.of 5 7 9 ∧
      PositionBase.opSub position3i (Position3.of 1 2 3) (Position3.of 4 5 6)
        = Position3.of (-3) (-3) (-3) := by
  refine ⟨fun D B S T a b => ⟨rfl, rfl⟩, ?_, ?_⟩ <;> decide

/-- C2. For every concrete family with native scalar `S`, every position `a` and
every factor `f` of any factor type `F` with conversion `cast` to `S`, `a * f`
is the concrete type constructed from `a.toBase() * cast(f)` and `a / f` the one
constructed from `a.toBase() / cast(f)`. In the 3D family over the integers,
`(1,2,3) * 2 = (2,4,6)`. -/
theorem opMul_opDiv_through_buffer :
    (∀ (D B S F : Type) (T : Family D B S) (cast : StaticCast F S) (a : D) (f : F),
        PositionBase.opMul T cast a f = T.ctor (T.bufMul (T.toBase a) (cast f)) ∧
        PositionBase.opDiv T cast a f = T.ctor (T.bufDiv (T.toBase a) (cast f))) ∧
      PositionBase.opMul position3i id (Position3.of 1 2 3) (2 : ℤ)
        = Position3.of 2 4 6 := by
  refine ⟨fun D B S F T cast a f => ⟨rfl, rfl⟩, ?_⟩
  decide

/-- C3. For every position `a` and every scalar `s` of any factor type, the free
function `s * a` returns the very value of the member form `a * s`. In the 3D
family over the integers, `2 * (1,2,3)` and `(1,2,3) * 2` are both `(2,4,6)`. -/
theorem opMulLeft_eq_opMul :
    (∀ (D B S F : Type) (T : Family D B S) (cast : StaticCast F S) (s : F) (a : D),
        opMulLeft T cast s a = PositionBase.opMul T cast a s) ∧
      opMulLeft position3i id (2 : ℤ) (Position3.of 1 2 3) = Position3.of 2 4 6 ∧
      PositionBase.opMul position3i id (Position3.of 1 2 3) (2 : ℤ)
        = Position3.of 2 4 6 := by
  refine ⟨fun D B S F T cast s a => rfl, ?_, ?_⟩ <;> decide

/-! ## Commutativity and associativity of `+` (C4, C5) -/

/-- C4. Over a backend buffer whose addition is commutative, `a + b = b + a` for
all positions `a`, `b` of one concrete family, with `+` the member `operator +`
resolved through `AdditionTraits::add`. -/
theorem opAdd_comm {D B S : Type} (T : Family D B S)
    (hcomm : ∀ x y : B, T.bufAdd x y = T.bufAdd y x) (a b : D) :
    PositionBase.opAdd T a b = PositionBase.opAdd T b a := by
  unfold PositionBase.opAdd internal.AdditionTraits.add PositionBase.derived
  rw [hcomm]

/-- C4 at a concrete input: the integer buffer adds commutatively, and
`(1,2,3) + (4,5,6) = (4,5,6) + (1,2,3)` in the 3D family over the integers. -/
theorem opAdd_comm_witness :
    (∀ x y : Vector3 ℤ, position3i.bufAdd x y = position3i.bufAdd y x) ∧
      PositionBase.opAdd position3i (Position3.of 1 2 3) (Position3.of 4 5 6)
        = PositionBase.opAdd position3i (Position3.of 4 5 6) (Position3.of 1 2 3) :=
  ⟨position3i_bufAdd_comm,
    opAdd_comm position3i position3i_bufAdd_comm (Position3.of 1 2 3) (Position3.of 4 5 6)⟩

/-- C5, as stated, fails. The range-limited family has a constructor from a
buffer and a `toBase()`, its buffer adds exactly and associatively, and yet with
`a = b = (100,0,0)` and `c = (-100,0,0)` the sum `(a + b) + c` is `(0,0,0)` while
`a + (b + c)` is `(100,0,0)`: the intermediate sum is saturated when it is
rebuilt into the concrete type. -/
theorem opAdd_assoc_fails_bounded :
    (∀ x y z : Vector3 ℤ,
        boundedPosition3.bufAdd (boundedPosition3.bufAdd x y) z
          = boundedPosition3.bufAdd x (boundedPosition3.bufAdd y z)) ∧
      PositionBase.opAdd boundedPosition3
          (PositionBase.opAdd boundedPosition3
            (BoundedPosition3.ofVector ⟨100, 0, 0⟩) (BoundedPosition3.ofVector ⟨100, 0, 0⟩))
          (BoundedPosition3.ofVector ⟨-100, 0, 0⟩)
        = BoundedPosition3.ofVector ⟨0, 0, 0⟩ ∧
      PositionBase.opAdd boundedPosition3
          (BoundedPosition3.ofVector ⟨100, 0, 0⟩)
          (PositionBase.opAdd boundedPosition3
            (BoundedPosition3.ofVector ⟨100, 0, 0⟩) (BoundedPosition3.ofVector ⟨-100, 0, 0⟩))
        = BoundedPosition3.ofVector ⟨100, 0, 0⟩ ∧
      PositionBase.opAdd boundedPosition3
          (PositionBase.opAdd boundedPosition3
            (BoundedPosition3.ofVector ⟨100, 0, 0⟩) (BoundedPosition3.ofVector ⟨100, 0, 0⟩))
          (BoundedPosition3.ofVector ⟨-100, 0, 0⟩)
        ≠ PositionBase.opAdd boundedPosition3
          (BoundedPosition3.ofVector ⟨100, 0, 0⟩)
          (PositionBase.opAdd boundedPosition3
            (BoundedPosition3.ofVector ⟨100, 0, 0⟩) (BoundedPosition3.ofVector ⟨-100, 0, 0⟩)) := by
  refine ⟨fun x y z => ?_, ?_, ?_, ?_⟩
  · simp [boundedPosition3, Vector3.add, add_assoc]
  · decide
  · decide
  · decide

/-- C5, amended. Over a backend buffer whose addition is associative, and for a
concrete type whose `toBase()` gives back the buffer it was constructed from,
`(a + b) + c = a + (b + c)` for all positions `a`, `b`, `c` of the family, each
`+` being the member `operator +`. -/
theorem opAdd_assoc_of_roundtrip {D B S : Type} (T : Family D B S)
    (hassoc : ∀ x y z : B, T.bufAdd (T.bufAdd x y) z = T.bufAdd x (T.bufAdd y z))
    (hround : ∀ x : B, T.toBase (T.ctor x) = x) (a b c : D) :
    PositionBase.opAdd T (PositionBase.opAdd T a b) c
      = PositionBase.opAdd T a (PositionBase.opAdd T b c) := by
  unfold PositionBase.opAdd internal.AdditionTraits.add PositionBase.derived
  rw [hround, hround, hassoc]

/-- C5 amended, at a concrete input: the 3D family over the integers meets both
hypotheses, and `((1,2,3) + (4,5,6)) + (7,8,9) = (1,2,3) + ((4,5,6) + (7,8,9))`. -/
theorem opAdd_assoc_of_roundtrip_witness :
    (∀ x : Vector3 ℤ, position3i.toBase (position3i.ctor x) = x) ∧
      PositionBase.opAdd position3i
          (PositionBase.opAdd position3i (Position3.of 1 2 3) (Position3.of 4 5 6))
          (Position3.of 7 8 9)
        = PositionBase.opAdd position3i (Position3.of 1 2 3)
          (PositionBase.opAdd position3i (Position3.of 4 5 6) (Position3.of 7 8 9)) :=
  ⟨fun _ => rfl,
    opAdd_assoc_of_roundtrip position3i position3i_bufAdd_assoc (fun _ => rfl)
      (Position3.of 1 2 3) (Position3.of 4 5 6) (Position3.of 7 8 9)⟩

/-! ## The zero position (C6)

The header declares no `operator ==`. The spec has the equality comparison
supplied by the backend buffer and consumed through the conversion to the
buffer, so `p == q` is read as `p.toBase() == q.toBase()`. -/

/-- C7, as stated, fails. (1) A factor that is not zero may convert to the zero
of the native scalar: in the 3D family over the integers, whatever quotient
`div` the backend computes, the factor one half converts to `0`, `(1,2,3) * half`
is `(0,0,0)`, and dividing it by one half gives three equal coordinates, never
`(1,2,3)`. (2) A concrete type whose constructor does not keep the buffer
breaks the round trip too: in the range-limited family `((100,0,0) * 2) / 2` is
`(50,0,0)`. -/
theorem opDiv_opMul_fails :
    half ≠ 0 ∧ truncCast half = 0 ∧
      (∀ div : ℤ → ℤ → ℤ,
        PositionBase.opDiv (position3 ℤ div) truncCast
            (PositionBase.opMul (position3 ℤ div) truncCast (Position3.of 1 2 3) half) half
          = Position3.of (div 0 0) (div 0 0) (div 0 0) ∧
        PositionBase.opDiv (position3 ℤ div) truncCast
            (PositionBase.opMul (position3 ℤ div) truncCast (Position3.of 1 2 3) half) half
          ≠ Position3.of 1 2 3) ∧
      PositionBase.opDiv boundedPosition3 id
          (PositionBase.opMul boundedPosition3 id (BoundedPosition3.ofVector ⟨100, 0, 0⟩) (2 : ℤ))
          (2 : ℤ)
        = BoundedPosition3.ofVector ⟨50, 0, 0⟩ ∧
      PositionBase.opDiv boundedPosition3 id
          (PositionBase.opMul boundedPosition3 id (BoundedPosition3.ofVector ⟨100, 0, 0⟩) (2 : ℤ))
          (2 : ℤ)
        ≠ BoundedPosition3.ofVector ⟨100, 0, 0⟩ := by
  refine ⟨half_ne_zero, truncCast_half, fun div => ?_, ?_, ?_⟩
  · have hval : PositionBase.opDiv (position3 ℤ div) truncCast
          (PositionBase.opMul (position3 ℤ div) truncCast (Position3.of 1 2 3) half) half
        = Position3.of (div 0 0) (div 0 0) (div 0 0) := by
      simp [PositionBase.opDiv, PositionBase.opMul, internal.MultiplicationTraits.divide,
        internal.MultiplicationTraits.multiply, PositionBase.derived, truncCast_half,
        position3, Vector3.scalarOp, Position3.of]
    refine ⟨hval, ?_⟩
    rw [hval]
    intro h
    have hx : div 0 0 = 1 := congrArg (fun p : Position3 ℤ => p.vector.x) h
    have hy : div 0 0 = 2 := congrArg (fun p : Position3 ℤ => p.vector.y) h
    omega
  · decide
  · decide

/-- C7, amended. Let the backend divide exactly (`(x * k) / k = x` for every
scalar `k` other than `zero`) and let the constructor of the concrete type and
`toBase()` be inverse to each other. Then for every position `a` and every
factor `s`, of any factor type, whose conversion to the native scalar is not
`zero`: `(a * s) / s = a`. -/
theorem opDiv_opMul_cancel {D B S F : Type} (T : Family D B S) (cast : StaticCast F S)
    (zero : S)
    (hexact : ∀ (x : B) (k : S), k ≠ zero → T.bufDiv (T.bufMul x k) k = x)
    (hto : ∀ x : B, T.toBase (T.ctor x) = x)
    (hctor : ∀ a : D, T.ctor (T.toBase a) = a)
    (a : D) (s : F) (hs : cast s ≠ zero) :
    PositionBase.opDiv T cast (PositionBase.opMul T cast a s) s = a := by
  unfold PositionBase.opDiv PositionBase.opMul internal.MultiplicationTraits.divide
    internal.MultiplicationTraits.multiply PositionBase.derived
  rw [hto, hexact _ _ hs, hctor]

/-- C7 amended, at a concrete input: in the 3D family over the integers the
fraction `29/10` converts to `2`, which is not `0`, and
`((1,2,3) * 29/10) / (29/10) = (1,2,3)`. -/
theorem opDiv_opMul_cancel_witness :
    truncCast (29 / 10) ≠ 0 ∧
      PositionBase.opDiv position3i truncCast
          (PositionBase.opMul position3i truncCast (Position3.of 1 2 3) (29 / 10)) (29 / 10)
        = Position3.of 1 2 3 :=
  ⟨by rw [truncCast_29_10]; decide,
    opDiv_opMul_cancel position3i truncCast 0 position3i_bufDiv_bufMul (fun _ => rfl)
      (fun _ => rfl) (Position3.of 1 2 3) (29 / 10) (by rw [truncCast_29_10]; decide)⟩

/-- C8. Division has no branch on the divisor: for every position `a` and every
divisor `d`, `a / d` is the concrete type constructed from
`a.toBase() / cast(d)`; in particular when `cast(d)` is the additive identity
`zero` of the native scalar the result is the one constructed from
`a.toBase() / zero`, whatever the backend yields there. The operator is a total
function into the concrete type and has no failure value. -/
theorem opDiv_unguarded {D B S F : Type} (T : Family D B S) (cast : StaticCast F S)
    (zero : S) (a : D) (d : F) (hd : cast d = zero) :
    PositionBase.opDiv T cast a d = T.ctor (T.bufDiv (T.toBase a) zero) ∧
      ∀ e : F, PositionBase.opDiv T cast a e = T.ctor (T.bufDiv (T.toBase a) (cast e)) := by
  refine ⟨?_, fun e => rfl⟩
  rw [← hd]
  rfl

/-- C8 at a concrete input: in a 3D family over the integers with any backend
quotient `div`, the divisor one half is not zero, converts to `0`, and
`(1,2,3) / half` is `(div 1 0, div 2 0, div 3 0)`. -/
theorem opDiv_unguarded_witness :
    half ≠ 0 ∧ truncCast half = 0 ∧
      ∀ div : ℤ → ℤ → ℤ,
        PositionBase.opDiv (position3 ℤ div) truncCast (Position3.of 1 2 3) half
          = Position3.of (div 1 0) (div 2 0) (div 3 0) :=
  ⟨half_ne_zero, truncCast_half, fun div =>
    (opDiv_unguarded (position3 ℤ div) truncCast 0 (Position3.of 1 2 3) half
      truncCast_half).1⟩

/-- C10. Scaling sees the factor only through its conversion to the native
scalar: for factors `f`, `g` of factor types `F`, `G` with `cast(f) = cast(g)`,
`a * f = a * g` and `a / f = a / g`; and `a * f = a * cast(f)`,
`a / f = a / cast(f)`, the native scalar converting to itself unchanged. -/
theorem scaling_depends_on_cast {D B S F G : Type} (T : Family D B S)
    (castF : StaticCast F S) (castG : StaticCast G S) (a : D) (f : F) (g : G)
    (h : castF f = castG g) :
    PositionBase.opMul T castF a f = PositionBase.opMul T castG a g ∧
      PositionBase.opDiv T castF a f = PositionBase.opDiv T castG a g ∧
      PositionBase.opMul T castF a f = PositionBase.opMul T id a (castF f) ∧
      PositionBase.opDiv T castF a f = PositionBase.opDiv T id a (castF f) := by
  unfold PositionBase.opMul PositionBase.opDiv internal.MultiplicationTraits.multiply
    internal.MultiplicationTraits.divide
  rw [h]
  exact ⟨rfl, rfl, rfl, rfl⟩

/-- C10 at a concrete input: in the 3D family over the integers, whose
conversion from a fraction truncates, `29/10` converts to `2`, so
`(1,2,3) * 29/10 = (1,2,3) * 2 = (2,4,6)` and `(1,2,3) / (29/10) = (1,2,3) / 2`. -/
theorem scaling_depends_on_cast_witness :
    truncCast (29 / 10) = id (2 : ℤ) ∧
      PositionBase.opMul position3i truncCast (Position3.of 1 2 3) (29 / 10)
        = PositionBase.opMul position3i id (Position3.of 1 2 3) (2 : ℤ) ∧
      PositionBase.opMul position3i id (Position3.of 1 2 3) (2 : ℤ) = Position3.of 2 4 6 ∧
      PositionBase.opDiv position3i truncCast (Position3.of 1 2 3) (29 / 10)
        = PositionBase.opDiv position3i id (Position3.of 1 2 3) (2 : ℤ) :=
  ⟨truncCast_29_10,
    (scaling_depends_on_cast position3i truncCast id (Position3.of 1 2 3) (29 / 10) (2 : ℤ)
      truncCast_29_10).1,
    by decide,
    (scaling_depends_on_cast position3i truncCast id (Position3.of 1 2 3) (29 / 10) (2 : ℤ)
      truncCast_29_10).2.1⟩

/-! ## Compound assignment (C9) -/

/-- C9. For positions at addresses `a` and `b`, `a += b` leaves the same store as
the statement `a = a + b`: afterwards `a` holds the sum `a + b` computed from the
values before, every object other than `a` (so `b`, when it is another object)
is unchanged, and the returned reference is `a`. -/
theorem opAddAssign_equiv_assign {D B S : Type} (T : Family D B S) (σ : Store D)
    (a b : ℕ) :
    (PositionBase.opAddAssign T σ a b).1 = assignSum T σ a b ∧
      (PositionBase.opAddAssign T σ a b).1 a = PositionBase.opAdd T (σ a) (σ b) ∧
      (∀ c : ℕ, c ≠ a → (PositionBase.opAddAssign T σ a b).1 c = σ c) ∧
      (b ≠ a → (PositionBase.opAddAssign T σ a b).1 b = σ b) ∧
      (PositionBase.opAddAssign T σ a b).2 = a := by
  refine ⟨?_, ?_, fun c hc => ?_, fun hb => ?_, rfl⟩
  · funext c
    by_cases hc : c = a
    · subst hc
      simp [PositionBase.opAddAssign, assignSum]
    · simp [PositionBase.opAddAssign, assignSum, hc]
  · simp [PositionBase.opAddAssign]
  · simp [PositionBase.opAddAssign, hc]
  · simp [PositionBase.opAddAssign, hb]

/-- C9 at a concrete input: with `a = (1,2,3)` at address `0` and `b = (4,5,6)`
at address `1`, after `a += b` the object `a` is `(5,7,9)`, `b` is still
`(4,5,6)`, and the returned reference is address `0`. -/
theorem opAddAssign_equiv_assign_witness :
    (PositionBase.opAddAssign position3i sampleStore 0 1).1 0 = Position3.of 5 7 9 ∧
      (PositionBase.opAddAssign position3i sampleStore 0 1).1 1 = Position3.of 4 5 6 ∧
      (PositionBase.opAddAssign position3i sampleStore 0 1).2 = 0 :=
  ⟨(opAddAssign_equiv_assign position3i sampleStore 0 1).2.1.trans (by decide),
    ((opAddAssign_equiv_assign position3i sampleStore 0 1).2.2.2.1 (by decide)).trans
      (by decide),
    (opAddAssign_equiv_assign position3i sampleStore 0 1).2.2.2.2⟩

end positions
end kindr
